import Mathlib

/-!
Verification development for the widgetwatch data-acquisition core.

The definitions below are a shallow embedding of the two source files:
  * `src/unnamed/part_000`  — the FR24 schedule endpoint: an in-memory
    bounded TTL cache (`cacheGet`/`cacheSet`), a global outbound rate
    limiter (`rateLimitedFetch`), and the paginated aggregation handler.
  * `src/api/flight-times.js` — the FlightAware scrape endpoint: a second
    bounded TTL cache (`getCached`/`setCache`), a per-client sliding-window
    limiter (`isRateLimited`), flight-number normalization
    (`normalizeFlightNumber`), epoch conversion (`epochToISO`) and the
    best-candidate selection loop of the handler.

Modelling conventions:
  * JS `Map` objects are modelled as association lists in insertion order
    (`Map.set` updates in place, otherwise appends; `Map.delete` removes
    the entry with the given key; `map.keys().next().value` is the head).
  * `Date.now()` values and epoch timestamps are `Int` parameters threaded
    explicitly through the stateful operations.
  * JS strings manipulated character-wise (flight-number normalization)
    are modelled as lists of character codes (`List Nat`), with ASCII
    case mapping and the ASCII fragment of the `\s` class.
  * Fallible JS evaluation (a thrown `TypeError`) is `Except String`.
-/

/-! ## Generic association-list model of a JS `Map` (insertion order) -/

/-- Lookup in insertion order: `map.get(k)` (first entry with key `k`). -/
def mapGet {κ β : Type} [DecidableEq κ] (m : List (κ × β)) (k : κ) : Option β :=
  (m.find? (fun p => p.1 = k)).map (fun p => p.2)

/-- `map.set(k, v)`: update in place if `k` is present, else append. -/
def mapSet {κ β : Type} [DecidableEq κ] (m : List (κ × β)) (k : κ) (v : β) :
    List (κ × β) :=
  if m.any (fun p => p.1 = k) then
    m.map (fun p => if p.1 = k then (k, v) else p)
  else m ++ [(k, v)]

/-- `map.delete(k)`: remove the entry with key `k` (keys are unique in a
reachable `Map`, so erasing the first match is exact). -/
def mapDelete {κ β : Type} [DecidableEq κ] (m : List (κ × β)) (k : κ) :
    List (κ × β) :=
  m.eraseP (fun p => decide (p.1 = k))

/-- `cache.keys().next().value` followed by `cache.delete(...)`: drop the
oldest (first-inserted) entry; on an empty map `delete(undefined)` is a
no-op. -/
def evictOldest {κ β : Type} [DecidableEq κ] (m : List (κ × β)) : List (κ × β) :=
  match m.head? with
  | some p => mapDelete m p.1
  | none => m

/-! ## Schedule cache (`src/unnamed/part_000`, lines 1–24) -/

/-- `MAX_CACHE_SIZE` of the schedule cache. -/
def MAX_CACHE_SIZE : Nat := 200

/-- A schedule-cache entry `{ data, expires, time }`. -/
structure SchedCacheEntry (α : Type) where
  data : α
  expires : Int
  time : Int
deriving DecidableEq, Repr

/-- The schedule cache: a `Map` from keys to entries.  The source keys it
by composite strings; the operations are key-generic, so the key type is a
parameter. -/
abbrev SchedCache (κ α : Type) := List (κ × SchedCacheEntry α)

/-- `cacheGet(key)`: absent if unknown; if `Date.now() > entry.expires` the
entry is deleted and the read returns absent; otherwise the entry is
returned and the cache is unchanged.  The first component is the returned
value, the second the cache after the read. -/
def cacheGet {κ α : Type} [DecidableEq κ] (now : Int) (key : κ)
    (c : SchedCache κ α) : Option (SchedCacheEntry α) × SchedCache κ α :=
  match mapGet c key with
  | none => (none, c)
  | some entry =>
    if now > entry.expires then (none, mapDelete c key)
    else (some entry, c)

/-- `cacheSet(key, data, ttlMs)`: evict the oldest entry when
`cache.size >= MAX_CACHE_SIZE`, then insert
`{ data, expires: now + ttl, time: now }`. -/
def cacheSet {κ α : Type} [DecidableEq κ] (now : Int) (key : κ) (d : α)
    (ttlMs : Int) (c : SchedCache κ α) : SchedCache κ α :=
  mapSet (if MAX_CACHE_SIZE ≤ c.length then evictOldest c else c)
    key ⟨d, now + ttlMs, now⟩

/-! ## Flight-times cache (`src/api/flight-times.js`, lines 5–17) -/

/-- `CACHE_TTL_MS` of the flight-times cache. -/
def CACHE_TTL_MS : Int := 120000

/-- A flight-times cache entry `{ data, ts }`. -/
structure FTCacheEntry (α : Type) where
  data : α
  ts : Int
deriving DecidableEq, Repr

/-- The flight-times cache (key-generic, as for the schedule cache). -/
abbrev FTCache (κ α : Type) := List (κ × FTCacheEntry α)

/-- `getCached(key)`: absent if unknown; if `Date.now() - entry.ts >
CACHE_TTL_MS` the entry is deleted and the read is absent; otherwise
`entry.data` is returned and the cache unchanged. -/
def getCached {κ α : Type} [DecidableEq κ] (now : Int) (key : κ)
    (c : FTCache κ α) : Option α × FTCache κ α :=
  match mapGet c key with
  | none => (none, c)
  | some entry =>
    if now - entry.ts > CACHE_TTL_MS then (none, mapDelete c key)
    else (some entry.data, c)

/-- `setCache(key, data)`: evict the oldest entry when `cache.size > 200`,
then insert `{ data, ts: now }`.  Note the strict `>` (the schedule cache
uses `>=`). -/
def setCache {κ α : Type} [DecidableEq κ] (now : Int) (key : κ) (d : α)
    (c : FTCache κ α) : FTCache κ α :=
  mapSet (if 200 < c.length then evictOldest c else c) key ⟨d, now⟩

/-! ## Basic lemmas about the map model -/

theorem mapGet_nil {κ β : Type} [DecidableEq κ] (k : κ) :
    mapGet ([] : List (κ × β)) k = none := rfl

theorem mapSet_length_le {κ β : Type} [DecidableEq κ]
    (m : List (κ × β)) (k : κ) (v : β) :
    (mapSet m k v).length ≤ m.length + 1 := by
  unfold mapSet
  split
  · simp
  · simp

theorem evictOldest_eq_tail {κ β : Type} [DecidableEq κ] (m : List (κ × β)) :
    evictOldest m = m.tail := by
  unfold evictOldest
  match m with
  | [] => rfl
  | p :: rest =>
    simp only [List.head?_cons, mapDelete, List.eraseP_cons, decide_eq_true_eq]
    simp

/-- A fresh `set` (key not present) appends at the end. -/
theorem mapSet_fresh {κ β : Type} [DecidableEq κ]
    (m : List (κ × β)) (k : κ) (v : β)
    (h : ∀ p ∈ m, p.1 ≠ k) :
    mapSet m k v = m ++ [(k, v)] := by
  unfold mapSet
  have : m.any (fun p => p.1 = k) = false := by
    simp only [List.any_eq_false, decide_eq_true_eq]
    intro p hp
    exact h p hp
  simp [this]

/-- Looking up a key in a constant-valued key list. -/
theorem mapGet_map_const {κ β : Type} [DecidableEq κ]
    (ks : List κ) (e : β) (k : κ) (h : k ∈ ks) :
    mapGet (ks.map (fun k' => (k', e))) k = some e := by
  induction ks with
  | nil => cases h
  | cons a rest ih =>
    by_cases hak : a = k
    · subst hak
      simp [mapGet, List.find?]
    · have h' : k ∈ rest := by
        cases List.mem_cons.mp h with
        | inl hc => exact absurd hc.symm hak
        | inr hc => exact hc
      simpa [mapGet, List.find?, hak] using ih h'

/-- Looking up a key absent from a constant-valued key list. -/
theorem mapGet_map_const_not_mem {κ β : Type} [DecidableEq κ]
    (ks : List κ) (e : β) (k : κ) (h : k ∉ ks) :
    mapGet (ks.map (fun k' => (k', e))) k = none := by
  induction ks with
  | nil => rfl
  | cons a rest ih =>
    have hak : a ≠ k := fun hc => h (hc ▸ List.mem_cons_self a rest)
    have hk : k ∉ rest := fun hc => h (List.mem_cons_of_mem a hc)
    simpa [mapGet, List.find?, hak] using ih hk

/-- Lookup is `none` when no entry carries the key. -/
theorem mapGet_eq_none {κ β : Type} [DecidableEq κ]
    (m : List (κ × β)) (k : κ) (h : ∀ p ∈ m, p.1 ≠ k) :
    mapGet m k = none := by
  unfold mapGet
  have : m.find? (fun p => p.1 = k) = none := by
    rw [List.find?_eq_none]
    intro p hp
    simpa using h p hp
  simp [this]

/-- Deleting a key makes it unretrievable, provided keys are unique (as in
any reachable JS `Map`). -/
theorem mapGet_mapDelete_self {κ β : Type} [DecidableEq κ]
    (m : List (κ × β)) (k : κ) (hnd : (m.map Prod.fst).Nodup) :
    mapGet (mapDelete m k) k = none := by
  induction m with
  | nil => rfl
  | cons p rest ih =>
    simp only [List.map_cons, List.nodup_cons] at hnd
    by_cases hk : p.1 = k
    · have : mapDelete (p :: rest) k = rest := by
        simp [mapDelete, List.eraseP_cons, hk]
      rw [this]
      apply mapGet_eq_none
      intro q hq hqk
      apply hnd.1
      have hmem : q.1 ∈ rest.map Prod.fst := List.mem_map_of_mem Prod.fst hq
      rwa [hqk, ← hk] at hmem
    · have : mapDelete (p :: rest) k = p :: mapDelete rest k := by
        simp [mapDelete, List.eraseP_cons, hk]
      rw [this]
      have : mapGet (p :: mapDelete rest k) k = mapGet (mapDelete rest k) k := by
        simp [mapGet, List.find?, hk]
      rw [this]
      exact ih hnd.2

/-! ## Size invariants (claim C1) -/

/-- One schedule-cache `set` keeps the size within `MAX_CACHE_SIZE`. -/
theorem cacheSet_length_le {κ α : Type} [DecidableEq κ]
    (now : Int) (key : κ) (d : α) (ttl : Int) (c : SchedCache κ α)
    (h : c.length ≤ 200) :
    (cacheSet now key d ttl c).length ≤ 200 := by
  unfold cacheSet
  by_cases hc : MAX_CACHE_SIZE ≤ c.length
  · have h200 : c.length = 200 := le_antisymm h hc
    rw [if_pos hc, evictOldest_eq_tail]
    have := mapSet_length_le c.tail key
      (⟨d, now + ttl, now⟩ : SchedCacheEntry α)
    have ht : c.tail.length = c.length - 1 := List.length_tail c
    omega
  · rw [if_neg hc]
    have := mapSet_length_le c key (⟨d, now + ttl, now⟩ : SchedCacheEntry α)
    have hlt : c.length < 200 := by
      have := Nat.lt_of_not_le hc
      simpa [MAX_CACHE_SIZE] using this
    omega

/-- One flight-times `set` keeps the size within 201 (not 200: the guard is
`cache.size > 200`, checked before the insert). -/
theorem setCache_length_le {κ α : Type} [DecidableEq κ]
    (now : Int) (key : κ) (d : α) (c : FTCache κ α)
    (h : c.length ≤ 201) :
    (setCache now key d c).length ≤ 201 := by
  unfold setCache
  by_cases hc : 200 < c.length
  · rw [if_pos hc, evictOldest_eq_tail]
    have := mapSet_length_le c.tail key (⟨d, now⟩ : FTCacheEntry α)
    have ht : c.tail.length = c.length - 1 := List.length_tail c
    omega
  · rw [if_neg hc]
    have := mapSet_length_le c key (⟨d, now⟩ : FTCacheEntry α)
    omega

/-! ## Insertion-order eviction (claim C1) -/

/-- Folding distinct fresh keys into the schedule cache while it stays
below capacity appends them in insertion order. -/
theorem sched_insertAll_fresh {κ α : Type} [DecidableEq κ]
    (now : Int) (d : α) (ttl : Int) :
    ∀ (ks : List κ) (c : SchedCache κ α),
      c.length + ks.length ≤ 200 →
      (∀ k ∈ ks, ∀ p ∈ c, p.1 ≠ k) → ks.Nodup →
      ks.foldl (fun m k => cacheSet now k d ttl m) c
        = c ++ ks.map (fun k => (k, ⟨d, now + ttl, now⟩)) := by
  intro ks
  induction ks with
  | nil => intro c _ _ _; simp
  | cons k rest ih =>
    intro c hlen hfresh hnd
    simp only [List.length_cons] at hlen
    have hlt : ¬ (MAX_CACHE_SIZE ≤ c.length) := by
      simp only [MAX_CACHE_SIZE]
      omega
    have hstep : cacheSet now k d ttl c
        = c ++ [(k, ⟨d, now + ttl, now⟩)] := by
      unfold cacheSet
      rw [if_neg hlt]
      exact mapSet_fresh c k _ (fun p hp => hfresh k (List.mem_cons_self k rest) p hp)
    have hndrest := (List.nodup_cons.mp hnd).2
    have hknotin := (List.nodup_cons.mp hnd).1
    have h1 : (c ++ [(k, (⟨d, now + ttl, now⟩ : SchedCacheEntry α))]).length
        + rest.length ≤ 200 := by
      simp only [List.length_append, List.length_cons, List.length_nil]
      omega
    have h2 : ∀ k' ∈ rest,
        ∀ p ∈ c ++ [(k, (⟨d, now + ttl, now⟩ : SchedCacheEntry α))], p.1 ≠ k' := by
      intro k' hk' p hp
      rcases List.mem_append.mp hp with hpc | hpk
      · exact hfresh k' (List.mem_cons_of_mem k hk') p hpc
      · have : p = (k, (⟨d, now + ttl, now⟩ : SchedCacheEntry α)) := by
          simpa using hpk
        subst this
        intro hc
        have hc' : k = k' := hc
        exact hknotin (hc' ▸ hk')
    have hrest := ih _ h1 h2 hndrest
    rw [List.foldl_cons, hstep, hrest]
    simp

/-- Inserting 201 distinct keys `k0 :: l ++ [z]` (with `|l| = 199`) into the
empty schedule cache evicts exactly the first-inserted key `k0`. -/
theorem sched_fold_overflow {κ α : Type} [DecidableEq κ]
    (now : Int) (d : α) (ttl : Int) (k0 : κ) (l : List κ) (z : κ)
    (hlen : l.length = 199) (hnd : (k0 :: (l ++ [z])).Nodup) :
    (k0 :: (l ++ [z])).foldl (fun m k => cacheSet now k d ttl m) []
      = (l ++ [z]).map (fun k => (k, ⟨d, now + ttl, now⟩)) := by
  have hnd' := List.nodup_cons.mp hnd
  have hndl : (l ++ [z]).Nodup := hnd'.2
  have hk0 : k0 ∉ l ++ [z] := hnd'.1
  have hfirst : (k0 :: l).foldl (fun m k => cacheSet now k d ttl m) []
      = (k0 :: l).map (fun k => (k, ⟨d, now + ttl, now⟩)) := by
    have := sched_insertAll_fresh now d ttl (k0 :: l) []
      (by simp [hlen]) (by simp)
      (by
        rw [List.nodup_cons]
        constructor
        · intro hc
          exact hk0 (List.mem_append.mpr (Or.inl hc))
        · exact (List.nodup_append.mp hndl).1)
    simpa using this
  have hdecomp : k0 :: (l ++ [z]) = (k0 :: l) ++ [z] := by simp
  rw [hdecomp, List.foldl_append, hfirst]
  have hsize : ((k0 :: l).map
      (fun k => (k, (⟨d, now + ttl, now⟩ : SchedCacheEntry α)))).length = 200 := by
    simp [hlen]
  have htrig : MAX_CACHE_SIZE ≤ ((k0 :: l).map
      (fun k => (k, (⟨d, now + ttl, now⟩ : SchedCacheEntry α)))).length := by
    rw [hsize]
    exact le_rfl
  show cacheSet now z d ttl _ = _
  unfold cacheSet
  rw [if_pos htrig, evictOldest_eq_tail]
  have htail : ((k0 :: l).map
      (fun k => (k, (⟨d, now + ttl, now⟩ : SchedCacheEntry α)))).tail
      = l.map (fun k => (k, ⟨d, now + ttl, now⟩)) := by simp
  rw [htail, mapSet_fresh]
  · simp
  · intro p hp hpz
    rcases List.mem_map.mp hp with ⟨k', hk', hpk'⟩
    have hzl : z ∈ l := by
      rw [← hpz, ← hpk']
      exact hk'
    have : ¬ (l ++ [z]).Nodup := by
      intro hcon
      have := List.disjoint_of_nodup_append hcon
      exact this hzl (by simp)
    exact this hndl

/-- Folding distinct fresh keys into the flight-times cache while it stays
at or below 201 entries appends them in insertion order. -/
theorem ft_insertAll_fresh {κ α : Type} [DecidableEq κ]
    (now : Int) (d : α) :
    ∀ (ks : List κ) (c : FTCache κ α),
      c.length + ks.length ≤ 201 →
      (∀ k ∈ ks, ∀ p ∈ c, p.1 ≠ k) → ks.Nodup →
      ks.foldl (fun m k => setCache now k d m) c
        = c ++ ks.map (fun k => (k, ⟨d, now⟩)) := by
  intro ks
  induction ks with
  | nil => intro c _ _ _; simp
  | cons k rest ih =>
    intro c hlen hfresh hnd
    simp only [List.length_cons] at hlen
    have hlt : ¬ (200 < c.length) := by omega
    have hstep : setCache now k d c = c ++ [(k, ⟨d, now⟩)] := by
      unfold setCache
      rw [if_neg hlt]
      exact mapSet_fresh c k _ (fun p hp => hfresh k (List.mem_cons_self k rest) p hp)
    have hndrest := (List.nodup_cons.mp hnd).2
    have hknotin := (List.nodup_cons.mp hnd).1
    have h1 : (c ++ [(k, (⟨d, now⟩ : FTCacheEntry α))]).length
        + rest.length ≤ 201 := by
      simp only [List.length_append, List.length_cons, List.length_nil]
      omega
    have h2 : ∀ k' ∈ rest,
        ∀ p ∈ c ++ [(k, (⟨d, now⟩ : FTCacheEntry α))], p.1 ≠ k' := by
      intro k' hk' p hp
      rcases List.mem_append.mp hp with hpc | hpk
      · exact hfresh k' (List.mem_cons_of_mem k hk') p hpc
      · have : p = (k, (⟨d, now⟩ : FTCacheEntry α)) := by simpa using hpk
        subst this
        intro hc
        have hc' : k = k' := hc
        exact hknotin (hc' ▸ hk')
    have hrest := ih _ h1 h2 hndrest
    rw [List.foldl_cons, hstep, hrest]
    simp

/-- Inserting 202 distinct keys `k0 :: l ++ [z]` (with `|l| = 200`) into the
empty flight-times cache evicts exactly the first-inserted key `k0`;
the eviction happens only at the 202nd insert. -/
theorem ft_fold_overflow {κ α : Type} [DecidableEq κ]
    (now : Int) (d : α) (k0 : κ) (l : List κ) (z : κ)
    (hlen : l.length = 200) (hnd : (k0 :: (l ++ [z])).Nodup) :
    (k0 :: (l ++ [z])).foldl (fun m k => setCache now k d m) []
      = (l ++ [z]).map (fun k => (k, ⟨d, now⟩)) := by
  have hnd' := List.nodup_cons.mp hnd
  have hndl : (l ++ [z]).Nodup := hnd'.2
  have hk0 : k0 ∉ l ++ [z] := hnd'.1
  have hfirst : (k0 :: l).foldl (fun m k => setCache now k d m) []
      = (k0 :: l).map (fun k => (k, ⟨d, now⟩)) := by
    have := ft_insertAll_fresh now d (k0 :: l) []
      (by simp [hlen]) (by simp)
      (by
        rw [List.nodup_cons]
        constructor
        · intro hc
          exact hk0 (List.mem_append.mpr (Or.inl hc))
        · exact (List.nodup_append.mp hndl).1)
    simpa using this
  have hdecomp : k0 :: (l ++ [z]) = (k0 :: l) ++ [z] := by simp
  rw [hdecomp, List.foldl_append, hfirst]
  have hsize : ((k0 :: l).map
      (fun k => (k, (⟨d, now⟩ : FTCacheEntry α)))).length = 201 := by
    simp [hlen]
  have htrig : 200 < ((k0 :: l).map
      (fun k => (k, (⟨d, now⟩ : FTCacheEntry α)))).length := by
    rw [hsize]
    omega
  show setCache now z d _ = _
  unfold setCache
  rw [if_pos htrig, evictOldest_eq_tail]
  have htail : ((k0 :: l).map
      (fun k => (k, (⟨d, now⟩ : FTCacheEntry α)))).tail
      = l.map (fun k => (k, ⟨d, now⟩)) := by simp
  rw [htail, mapSet_fresh]
  · simp
  · intro p hp hpz
    rcases List.mem_map.mp hp with ⟨k', hk', hpk'⟩
    have hzl : z ∈ l := by
      rw [← hpz, ← hpk']
      exact hk'
    have := List.disjoint_of_nodup_append hndl
    exact this hzl (by simp)

/-- Reading an unknown key leaves the schedule cache unchanged. -/
theorem cacheGet_none_of_unknown {κ α : Type} [DecidableEq κ] (now : Int)
    (key : κ) (c : SchedCache κ α) (h : mapGet c key = none) :
    cacheGet now key c = (none, c) := by
  unfold cacheGet
  rw [h]

/-- Reading a live entry returns it and leaves the schedule cache
unchanged. -/
theorem cacheGet_live {κ α : Type} [DecidableEq κ] (now : Int) (key : κ)
    (c : SchedCache κ α) (e : SchedCacheEntry α) (h : mapGet c key = some e)
    (hlive : ¬ now > e.expires) :
    cacheGet now key c = (some e, c) := by
  unfold cacheGet
  rw [h]
  exact if_neg hlive

/-- Reading an expired entry deletes it and returns absent. -/
theorem cacheGet_expired {κ α : Type} [DecidableEq κ] (now : Int) (key : κ)
    (c : SchedCache κ α) (e : SchedCacheEntry α) (h : mapGet c key = some e)
    (hexp : now > e.expires) :
    cacheGet now key c = (none, mapDelete c key) := by
  unfold cacheGet
  rw [h]
  exact if_pos hexp

/-- Reading an unknown key leaves the flight-times cache unchanged. -/
theorem getCached_none_of_unknown {κ α : Type} [DecidableEq κ] (now : Int)
    (key : κ) (c : FTCache κ α) (h : mapGet c key = none) :
    getCached now key c = (none, c) := by
  unfold getCached
  rw [h]

/-- Reading a live entry returns its data and leaves the flight-times
cache unchanged. -/
theorem getCached_live {κ α : Type} [DecidableEq κ] (now : Int) (key : κ)
    (c : FTCache κ α) (e : FTCacheEntry α) (h : mapGet c key = some e)
    (hlive : ¬ now - e.ts > CACHE_TTL_MS) :
    getCached now key c = (some e.data, c) := by
  unfold getCached
  rw [h]
  exact if_neg hlive

/-- Reading an expired entry deletes it and returns absent. -/
theorem getCached_expired {κ α : Type} [DecidableEq κ] (now : Int) (key : κ)
    (c : FTCache κ α) (e : FTCacheEntry α) (h : mapGet c key = some e)
    (hexp : now - e.ts > CACHE_TTL_MS) :
    getCached now key c = (none, mapDelete c key) := by
  unfold getCached
  rw [h]
  exact if_pos hexp

/-- Any sequence of schedule-cache sets from the empty cache stays within
200 entries. -/
theorem sched_foldl_length_le {κ α : Type} [DecidableEq κ]
    (ops : List (Int × κ × α × Int)) :
    ∀ c : SchedCache κ α, c.length ≤ 200 →
      (ops.foldl (fun c op => cacheSet op.1 op.2.1 op.2.2.1 op.2.2.2 c) c).length
        ≤ 200 := by
  induction ops with
  | nil => intro c h; simpa using h
  | cons op rest ih =>
    intro c h
    rw [List.foldl_cons]
    exact ih _ (cacheSet_length_le _ _ _ _ _ h)

/-- Any sequence of flight-times-cache sets from the empty cache stays
within 201 entries. -/
theorem ft_foldl_length_le {κ α : Type} [DecidableEq κ]
    (ops : List (Int × κ × α)) :
    ∀ c : FTCache κ α, c.length ≤ 201 →
      (ops.foldl (fun c op => setCache op.1 op.2.1 op.2.2 c) c).length ≤ 201 := by
  induction ops with
  | nil => intro c h; simpa using h
  | cons op rest ih =>
    intro c h
    rw [List.foldl_cons]
    exact ih _ (setCache_length_le _ _ _ _ h)

/-- Claim C1 (amended).  The schedule cache (`cacheSet`, guard
`size >= 200`) holds at most 200 live entries, and after inserting 201
distinct keys the first-inserted key is no longer retrievable while the
most recent 200 all are.  The flight-times cache (`setCache`, guard
`size > 200`) holds at most 201 live entries; after 201 distinct inserts
all 201 keys (the first included) are still retrievable, and only after a
202nd distinct insert is the first-inserted key evicted, the most recent
201 remaining retrievable. -/
theorem claim_C1_amended :
    (∀ (κ α : Type) [DecidableEq κ] (ops : List (Int × κ × α × Int)),
       (ops.foldl (fun c op => cacheSet op.1 op.2.1 op.2.2.1 op.2.2.2 c)
         []).length ≤ 200)
    ∧ (∀ (κ α : Type) [DecidableEq κ] (now ttl : Int) (d : α) (k0 z : κ)
         (l : List κ), l.length = 199 → (k0 :: (l ++ [z])).Nodup → 0 ≤ ttl →
       (cacheGet now k0 ((k0 :: (l ++ [z])).foldl
           (fun m k => cacheSet now k d ttl m) [])).1 = none
       ∧ ∀ k ∈ l ++ [z],
           (cacheGet now k ((k0 :: (l ++ [z])).foldl
               (fun m k => cacheSet now k d ttl m) [])).1
             = some ⟨d, now + ttl, now⟩)
    ∧ (∀ (κ α : Type) [DecidableEq κ] (ops : List (Int × κ × α)),
       (ops.foldl (fun c op => setCache op.1 op.2.1 op.2.2 c) []).length ≤ 201)
    ∧ (∀ (κ α : Type) [DecidableEq κ] (now : Int) (d : α) (ks : List κ),
         ks.length = 201 → ks.Nodup →
       (ks.foldl (fun m k => setCache now k d m) []).length = 201
       ∧ ∀ k ∈ ks,
           (getCached now k (ks.foldl (fun m k => setCache now k d m) [])).1
             = some d)
    ∧ (∀ (κ α : Type) [DecidableEq κ] (now : Int) (d : α) (k0 z : κ)
         (l : List κ), l.length = 200 → (k0 :: (l ++ [z])).Nodup →
       (getCached now k0 ((k0 :: (l ++ [z])).foldl
           (fun m k => setCache now k d m) [])).1 = none
       ∧ ∀ k ∈ l ++ [z],
           (getCached now k ((k0 :: (l ++ [z])).foldl
               (fun m k => setCache now k d m) [])).1 = some d) := by
  refine ⟨?_, ?_, ?_, ?_, ?_⟩
  · intro κ α inst ops
    exact sched_foldl_length_le ops [] (by simp)
  · intro κ α inst now ttl d k0 z l hlen hnd httl
    rw [sched_fold_overflow now d ttl k0 l z hlen hnd]
    have hk0 : k0 ∉ l ++ [z] := (List.nodup_cons.mp hnd).1
    constructor
    · have hget := mapGet_map_const_not_mem (l ++ [z])
        (⟨d, now + ttl, now⟩ : SchedCacheEntry α) k0 hk0
      rw [cacheGet_none_of_unknown now k0 _ hget]
    · intro k hk
      have hget := mapGet_map_const (l ++ [z])
        (⟨d, now + ttl, now⟩ : SchedCacheEntry α) k hk
      have hlive : ¬ (now > (⟨d, now + ttl, now⟩ : SchedCacheEntry α).expires) := by
        simp only [SchedCacheEntry.expires]
        omega
      rw [cacheGet_live now k _ _ hget hlive]
  · intro κ α inst ops
    exact ft_foldl_length_le ops [] (by simp)
  · intro κ α inst now d ks hlen hnd
    have h := ft_insertAll_fresh now d ks [] (by simp [hlen]) (by simp) hnd
    rw [List.nil_append] at h
    rw [h]
    constructor
    · simp [hlen]
    · intro k hk
      have hget := mapGet_map_const ks (⟨d, now⟩ : FTCacheEntry α) k hk
      have hlive : ¬ (now - (⟨d, now⟩ : FTCacheEntry α).ts > CACHE_TTL_MS) := by
        simp only [FTCacheEntry.ts, CACHE_TTL_MS]
        omega
      rw [getCached_live now k _ _ hget hlive]
  · intro κ α inst now d k0 z l hlen hnd
    rw [ft_fold_overflow now d k0 l z hlen hnd]
    have hk0 : k0 ∉ l ++ [z] := (List.nodup_cons.mp hnd).1
    constructor
    · have hget := mapGet_map_const_not_mem (l ++ [z])
        (⟨d, now⟩ : FTCacheEntry α) k0 hk0
      rw [getCached_none_of_unknown now k0 _ hget]
    · intro k hk
      have hget := mapGet_map_const (l ++ [z]) (⟨d, now⟩ : FTCacheEntry α) k hk
      have hlive : ¬ (now - (⟨d, now⟩ : FTCacheEntry α).ts > CACHE_TTL_MS) := by
        simp only [FTCacheEntry.ts, CACHE_TTL_MS]
        omega
      rw [getCached_live now k _ _ hget hlive]

/-- Claim C1 is false as stated for the flight-times cache: inserting 201
distinct keys (here `0, 1, …, 200` with constant data) into the empty
cache leaves 201 live entries — more than `MAX_CACHE_SIZE` — and the
first-inserted key `0` is still retrievable. -/
theorem claim_C1_counterexample :
    ((List.range 201).foldl (fun m k => setCache 0 k (0 : Nat) m) []).length = 201
    ∧ (getCached 0 0
        ((List.range 201).foldl (fun m k => setCache 0 k (0 : Nat) m) [])).1
      = some 0 := by
  have h := ft_insertAll_fresh (κ := Nat) (α := Nat) 0 0 (List.range 201) []
    (by simp) (by simp) (List.nodup_range 201)
  rw [List.nil_append] at h
  constructor
  · rw [h]; simp
  · rw [h]
    have hget := mapGet_map_const (List.range 201) (⟨0, 0⟩ : FTCacheEntry Nat) 0
      (by simp)
    have hlive : ¬ ((0 : Int) - (⟨0, 0⟩ : FTCacheEntry Nat).ts > CACHE_TTL_MS) := by
      simp [CACHE_TTL_MS]
    rw [getCached_live 0 0 _ _ hget hlive]

/-- Witness for `claim_C1_amended` at concrete inputs: inserting the 201
distinct keys `0, …, 200` into the schedule cache evicts key `0`, and
inserting the 202 distinct keys `0, …, 201` into the flight-times cache
evicts key `0`. -/
theorem claim_C1_witness :
    ((List.range' 1 199).length = 199
      ∧ ((0 : Nat) :: (List.range' 1 199 ++ [200])).Nodup ∧ (0 : Int) ≤ 1000)
    ∧ (cacheGet 0 (0 : Nat)
        (((0 : Nat) :: (List.range' 1 199 ++ [200])).foldl
          (fun m k => cacheSet 0 k (0 : Nat) 1000 m) [])).1 = none
    ∧ (getCached 0 (0 : Nat)
        (((0 : Nat) :: (List.range' 1 200 ++ [201])).foldl
          (fun m k => setCache 0 k (0 : Nat) m) [])).1 = none := by
  have hd1 : List.range 201 = (0 : Nat) :: (List.range' 1 199 ++ [200]) := by
    rw [List.range_eq_range', show (201 : Nat) = 200 + 1 from rfl,
        List.range'_succ, show (200 : Nat) = 199 + 1 from rfl,
        List.range'_1_concat]
  have hd2 : List.range 202 = (0 : Nat) :: (List.range' 1 200 ++ [201]) := by
    rw [List.range_eq_range', show (202 : Nat) = 201 + 1 from rfl,
        List.range'_succ, show (201 : Nat) = 200 + 1 from rfl,
        List.range'_1_concat]
  have hnd1 : ((0 : Nat) :: (List.range' 1 199 ++ [200])).Nodup :=
    hd1 ▸ List.nodup_range 201
  have hnd2 : ((0 : Nat) :: (List.range' 1 200 ++ [201])).Nodup :=
    hd2 ▸ List.nodup_range 202
  refine ⟨⟨by simp, hnd1, by norm_num⟩, ?_, ?_⟩
  · exact (claim_C1_amended.2.1 Nat Nat 0 1000 0 0 200 (List.range' 1 199)
      (by simp) hnd1 (by norm_num)).1
  · exact (claim_C1_amended.2.2.2.2 Nat Nat 0 0 0 201 (List.range' 1 200)
      (by simp) hnd2).1

/-- Claim C5: for both caches, a get returns absent when the key is
unknown or the current time is past the entry's expiry; in the expired
case the entry is removed by the read, so an immediately repeated get is
also absent (given the unique keys of a JS `Map`); a get on a live entry
returns the stored value and leaves the cache unchanged.  The schedule
cache expires when `now > expires`; the flight-times cache when
`now - ts > CACHE_TTL_MS`. -/
theorem claim_C5_get_semantics :
    (∀ (κ α : Type) [DecidableEq κ] (now : Int) (k : κ) (c : SchedCache κ α),
      (mapGet c k = none → cacheGet now k c = (none, c))
      ∧ (∀ e, mapGet c k = some e → now > e.expires →
          (cacheGet now k c).1 = none
          ∧ ((c.map Prod.fst).Nodup →
              (cacheGet now k (cacheGet now k c).2).1 = none))
      ∧ (∀ e, mapGet c k = some e → ¬ now > e.expires →
          cacheGet now k c = (some e, c)))
    ∧ (∀ (κ α : Type) [DecidableEq κ] (now : Int) (k : κ) (c : FTCache κ α),
      (mapGet c k = none → getCached now k c = (none, c))
      ∧ (∀ e, mapGet c k = some e → now - e.ts > CACHE_TTL_MS →
          (getCached now k c).1 = none
          ∧ ((c.map Prod.fst).Nodup →
              (getCached now k (getCached now k c).2).1 = none))
      ∧ (∀ e, mapGet c k = some e → ¬ now - e.ts > CACHE_TTL_MS →
          getCached now k c = (some e.data, c))) := by
  constructor
  · intro κ α inst now k c
    refine ⟨fun h => cacheGet_none_of_unknown now k c h, ?_,
      fun e h hl => cacheGet_live now k c e h hl⟩
    intro e h hexp
    have hdel := cacheGet_expired now k c e h hexp
    constructor
    · rw [hdel]
    · intro hnd
      rw [hdel]
      have hnone : mapGet (mapDelete c k) k = none :=
        mapGet_mapDelete_self c k hnd
      rw [cacheGet_none_of_unknown now k _ hnone]
  · intro κ α inst now k c
    refine ⟨fun h => getCached_none_of_unknown now k c h, ?_,
      fun e h hl => getCached_live now k c e h hl⟩
    intro e h hexp
    have hdel := getCached_expired now k c e h hexp
    constructor
    · rw [hdel]
    · intro hnd
      rw [hdel]
      have hnone : mapGet (mapDelete c k) k = none :=
        mapGet_mapDelete_self c k hnd
      rw [getCached_none_of_unknown now k _ hnone]

/-- Witness for `claim_C5_get_semantics`: a concrete expired schedule-cache
read (entry expired at 10, read at 20) is absent, stays absent on an
immediate re-read, and a concrete live flight-times read returns the
stored data unchanged. -/
theorem claim_C5_witness :
    (mapGet [((0 : Nat), (⟨5, 10, 0⟩ : SchedCacheEntry Nat))] 0
        = some ⟨5, 10, 0⟩
      ∧ (20 : Int) > (10 : Int)
      ∧ (([((0 : Nat), (⟨5, 10, 0⟩ : SchedCacheEntry Nat))].map
          Prod.fst).Nodup))
    ∧ (cacheGet 20 0 [((0 : Nat), (⟨5, 10, 0⟩ : SchedCacheEntry Nat))]).1
        = none
    ∧ (cacheGet 20 0
        (cacheGet 20 0 [((0 : Nat), (⟨5, 10, 0⟩ : SchedCacheEntry Nat))]).2).1
        = none
    ∧ getCached 100 (0 : Nat) [((0 : Nat), (⟨7, 50⟩ : FTCacheEntry Nat))]
        = (some 7, [((0 : Nat), (⟨7, 50⟩ : FTCacheEntry Nat))]) := by
  have hs := (claim_C5_get_semantics.1 Nat Nat 20 0
    [((0 : Nat), ⟨5, 10, 0⟩)]).2.1 ⟨5, 10, 0⟩ rfl (by decide)
  have hf := (claim_C5_get_semantics.2 Nat Nat 100 0
    [((0 : Nat), ⟨7, 50⟩)]).2.2 ⟨7, 50⟩ rfl (by decide)
  exact ⟨⟨rfl, by decide, by decide⟩, hs.1, hs.2 (by decide), hf⟩

/-! ## Global rate limiter (`src/unnamed/part_000`, lines 4–5 and 26–31) -/

/-- `MIN_REQUEST_INTERVAL`: two seconds between FR24 requests. -/
def MIN_REQUEST_INTERVAL : Int := 2000

/-- The wait computed at the top of `rateLimitedFetch`:
`Math.max(0, MIN_REQUEST_INTERVAL - (now - lastFR24Request))`.  The caller
then sleeps that long, re-reads the clock into `lastFR24Request`, and
dispatches the upstream request.  Timing model: `setTimeout(wait)` never
resumes earlier than `now + wait`, so the dispatch (and new
`lastFR24Request`) is any `resume ≥ now + rlWait last now`. -/
def rlWait (lastFR24Request now : Int) : Int :=
  max 0 (MIN_REQUEST_INTERVAL - (now - lastFR24Request))

/-- Claim C7: the limiter waits `max(0, MIN_INTERVAL - (now - last))` and
records the dispatch time; for sequential acquires (the second enters at
`now2` no earlier than the first dispatch `d1`) the gap between
consecutive dispatch timestamps is at least `MIN_REQUEST_INTERVAL`. -/
theorem claim_C7_min_interval :
    (∀ last now : Int,
      rlWait last now = max 0 (MIN_REQUEST_INTERVAL - (now - last)))
    ∧ (∀ d1 now2 resume2 : Int, d1 ≤ now2 →
        now2 + rlWait d1 now2 ≤ resume2 →
        MIN_REQUEST_INTERVAL ≤ resume2 - d1) := by
  constructor
  · intro last now
    rfl
  · intro d1 now2 resume2 hseq hresume
    simp only [rlWait, MIN_REQUEST_INTERVAL] at *
    omega

/-- Witness for `claim_C7_min_interval`: the second of two back-to-back
acquires (both entering at time 0 with `lastFR24Request = 0`) cannot
dispatch before time 2000. -/
theorem claim_C7_witness :
    ((0 : Int) ≤ 0 ∧ (0 : Int) + rlWait 0 0 ≤ 2000)
    ∧ MIN_REQUEST_INTERVAL ≤ (2000 : Int) - 0 :=
  ⟨⟨by decide, by decide⟩, claim_C7_min_interval.2 0 0 2000 (by decide) (by decide)⟩

/-! ## Per-client sliding-window limiter (`src/api/flight-times.js`,
lines 19–35).  The client identifier extracted by `getClientIp` is taken
as an opaque string here; the limiter state maps each client to its log
of call timestamps. -/

/-- The `rateLimitByIp` map. -/
abbrev RateLimitMap := List (String × List Int)

/-- `isRateLimited(req)` for client `ip` at time `now`: shift timestamps
`t < now - 60000` off the head of the client's log, return not-allowed
without recording when 5 or more remain, else record `now` and allow.
Returns `(limited?, updated map)`. -/
def isRateLimited (now : Int) (ip : String) (m : RateLimitMap) :
    Bool × RateLimitMap :=
  let ipLog := (mapGet m ip).getD []
  let pruned := ipLog.dropWhile (fun t => decide (t < now - 60000))
  if 5 ≤ pruned.length then (true, mapSet m ip pruned)
  else (false, mapSet m ip (pruned ++ [now]))

/-- A sequence of checks for one client from an empty limiter state:
returns the list of `limited?` decisions. -/
def rlSequence (ip : String) (times : List Int) : List Bool × RateLimitMap :=
  times.foldl
    (fun acc t =>
      let r := isRateLimited t ip acc.2
      (acc.1 ++ [r.1], r.2))
    ([], [])

/-- Auxiliary: `find?` over an in-place replacement hits the new value. -/
theorem find?_map_replace {κ β : Type} [DecidableEq κ] (k : κ) (v : β) :
    ∀ (m : List (κ × β)), m.any (fun p => p.1 = k) = true →
      (m.map (fun p => if p.1 = k then (k, v) else p)).find?
        (fun p => p.1 = k) = some (k, v) := by
  intro m
  induction m with
  | nil => intro h; simp at h
  | cons p rest ih =>
    intro h
    by_cases hp : p.1 = k
    · simp [List.find?, hp]
    · have hrest : rest.any (fun p => p.1 = k) = true := by
        simpa [List.any_cons, hp] using h
      simpa [List.find?, hp] using ih hrest

/-- Auxiliary: `find?` over an append of a fresh entry hits that entry. -/
theorem find?_append_fresh {κ β : Type} [DecidableEq κ] (k : κ) (v : β) :
    ∀ (m : List (κ × β)), (∀ p ∈ m, p.1 ≠ k) →
      (m ++ [(k, v)]).find? (fun p => p.1 = k) = some (k, v) := by
  intro m
  induction m with
  | nil => intro _; simp [List.find?]
  | cons p rest ih =>
    intro h
    have hp : p.1 ≠ k := h p (List.mem_cons_self p rest)
    simpa [List.find?, hp] using
      ih (fun q hq => h q (List.mem_cons_of_mem p hq))

/-- `set` followed by `get` of the same key yields the written value. -/
theorem mapGet_mapSet_self {κ β : Type} [DecidableEq κ]
    (m : List (κ × β)) (k : κ) (v : β) :
    mapGet (mapSet m k v) k = some v := by
  unfold mapSet
  by_cases h : m.any (fun p => p.1 = k)
  · rw [if_pos h]
    unfold mapGet
    rw [find?_map_replace k v m h]
    rfl
  · rw [if_neg h]
    unfold mapGet
    have hany : m.any (fun p => p.1 = k) = false := Bool.eq_false_iff.mpr h
    have hfresh : ∀ p ∈ m, p.1 ≠ k := by
      intro p hp
      have := List.any_eq_false.mp hany p hp
      simpa using this
    rw [find?_append_fresh k v m hfresh]
    rfl

/-- On a non-decreasing log (as produced by appending non-decreasing
`Date.now()` values) the head-shifting prune of `isRateLimited` discards
exactly the timestamps older than the 60 s window. -/
theorem dropWhile_lt_eq_filter (cutoff : Int) :
    ∀ (l : List Int), l.Pairwise (· ≤ ·) →
      l.dropWhile (fun t => decide (t < cutoff))
        = l.filter (fun t => decide (cutoff ≤ t)) := by
  intro l
  induction l with
  | nil => intro _; rfl
  | cons a rest ih =>
    intro h
    have hall := (List.pairwise_cons.mp h).1
    have hrest := (List.pairwise_cons.mp h).2
    by_cases ha : a < cutoff
    · have h1 : decide (a < cutoff) = true := by simpa using ha
      have h2 : decide (cutoff ≤ a) = false := by simpa using not_le.mpr ha
      simp [List.dropWhile_cons, List.filter_cons, h1, h2, ih hrest]
    · have hax : cutoff ≤ a := not_lt.mp ha
      have h1 : decide (a < cutoff) = false := by simpa using ha
      have h2 : decide (cutoff ≤ a) = true := by simpa using hax
      have hfil : rest.filter (fun t => decide (cutoff ≤ t)) = rest := by
        apply List.filter_eq_self.mpr
        intro b hb
        simpa using le_trans hax (hall b hb)
      simp [List.dropWhile_cons, List.filter_cons, h1, h2, hfil]

/-- Claim C6: on each check the limiter first discards the client's
timestamps older than 60 000 ms, then returns not-allowed without
recording when 5 or more remain, and otherwise records `now` and allows;
consequently 5 calls within the window succeed, a 6th is rejected, and a
call after the window rolls past the first timestamp succeeds again
(checks at 0, 10 000, …, 50 000, 60 001 ms). -/
theorem claim_C6_sliding_window :
    (∀ (now : Int) (ip : String) (m : RateLimitMap) (log : List Int),
      mapGet m ip = some log → log.Pairwise (· ≤ ·) →
      (((isRateLimited now ip m).1 = true
          ↔ 5 ≤ (log.filter (fun t => decide (now - 60000 ≤ t))).length)
        ∧ (5 ≤ (log.filter (fun t => decide (now - 60000 ≤ t))).length →
            mapGet (isRateLimited now ip m).2 ip
              = some (log.filter (fun t => decide (now - 60000 ≤ t))))
        ∧ ((log.filter (fun t => decide (now - 60000 ≤ t))).length < 5 →
            mapGet (isRateLimited now ip m).2 ip
              = some (log.filter (fun t => decide (now - 60000 ≤ t)) ++ [now]))))
    ∧ (rlSequence "c" [0, 10000, 20000, 30000, 40000, 50000, 60001]).1
        = [false, false, false, false, false, true, false] := by
  constructor
  · intro now ip m log hlog hsorted
    have hprune := dropWhile_lt_eq_filter (now - 60000) log hsorted
    simp only [isRateLimited, hlog, Option.getD_some, hprune]
    by_cases hlen : 5 ≤ (log.filter (fun t => decide (now - 60000 ≤ t))).length
    · rw [if_pos hlen]
      exact ⟨iff_of_true rfl hlen, fun _ => mapGet_mapSet_self m ip _,
        fun hlt => absurd hlen (not_le.mpr hlt)⟩
    · rw [if_neg hlen]
      exact ⟨iff_of_false (by simp) hlen, fun hge => absurd hge hlen,
        fun _ => mapGet_mapSet_self m ip _⟩
  · decide

/-- Witness for `claim_C6_sliding_window`: a client with sorted log
`[0, 100]` checked at time 200 is allowed and its stored log gains the
new timestamp. -/
theorem claim_C6_witness :
    (mapGet [("c", [(0 : Int), 100])] "c" = some [0, 100]
      ∧ ([(0 : Int), 100]).Pairwise (· ≤ ·)
      ∧ (([(0 : Int), 100]).filter
          (fun t => decide ((200 : Int) - 60000 ≤ t))).length < 5)
    ∧ mapGet (isRateLimited 200 "c" [("c", [(0 : Int), 100])]).2 "c"
        = some ([(0 : Int), 100].filter
            (fun t => decide ((200 : Int) - 60000 ≤ t)) ++ [200]) := by
  refine ⟨⟨rfl, by decide, by decide⟩, ?_⟩
  exact (claim_C6_sliding_window.1 200 "c" [("c", [0, 100])] [0, 100]
    rfl (by decide)).2.2 (by decide)

/-! ## Schedule endpoint handler (`src/unnamed/part_000`, lines 52–148) -/

/-- `fl.time?.scheduled?.departure` / `.arrival` of one upstream record
(`none` models an absent field). -/
structure FlightSchedTimes where
  departure : Option Int
  arrival : Option Int
deriving DecidableEq, Repr

/-- One upstream flight `entry.flight`: the `airline?.code?.iata` chain
and the scheduled times.  The record's remaining fields do not influence
the handler's control flow and are collapsed into an opaque `payload`. -/
structure FlightRec where
  airlineIata : Option String
  scheduled : FlightSchedTimes
  payload : Nat
deriving DecidableEq, Repr

/-- One element of `sched.data` (`entry.flight` may be absent). -/
structure SchedDataEntry where
  flight : Option FlightRec
deriving DecidableEq, Repr

/-- One upstream schedule page: `sched.page?.total` and `sched.data`
(an absent `data` behaves like an empty one — both break the loop). -/
structure SchedPage where
  pageTotal : Option Nat
  data : List SchedDataEntry
deriving DecidableEq, Repr

/-- `dir === 'departures' ? schedDep : schedArr`. -/
def relevantTime (dir : String) (fl : FlightRec) : Option Int :=
  if dir = "departures" then fl.scheduled.departure else fl.scheduled.arrival

/-- JS test `flightTime && flightTime >= dayEnd`: `0` is falsy, and a
comparison against `NaN` (a failed `parseInt`, `dayEnd = none`) is
false. -/
def pastDayBoundary (dayEnd : Option Int) (ft : Option Int) : Bool :=
  match ft, dayEnd with
  | some t, some dEnd => t ≠ 0 ∧ dEnd ≤ t
  | _, _ => false

/-- The record loop of the aggregation handler over one page's `data`:
skips entries without `flight`, skips non-UA carriers, collects UA
flights, and `break`s at the first record whose relevant timestamp
crosses the day boundary — records after it on the page are not examined.
Returns the collected flights and the `pastDay` flag. -/
def processEntries (dir : String) (dayEnd : Option Int) :
    List SchedDataEntry → List FlightRec × Bool
  | [] => ([], false)
  | e :: rest =>
    match e.flight with
    | none => processEntries dir dayEnd rest
    | some fl =>
      if fl.airlineIata ≠ some "UA" then processEntries dir dayEnd rest
      else if pastDayBoundary dayEnd (relevantTime dir fl) then ([], true)
      else
        ((processEntries dir dayEnd rest).1.cons fl,
          (processEntries dir dayEnd rest).2)

/-- `MAX_PAGES` of the aggregation loop. -/
def MAX_PAGES : Nat := 20

/-- `sched.page?.total || 1` (`0` and absent are both falsy). -/
def pageTotalOrOne (p : SchedPage) : Nat :=
  match p.pageTotal with
  | some n => if n = 0 then 1 else n
  | none => 1

/-- The mutable state of the aggregation `while` loop.  `pagesRequested`
is the trace of upstream page fetches (a model artifact used to state
that a page is never requested). -/
structure AggLoopState where
  allUAFlights : List FlightRec
  totalFetched : Nat
  pageNum : Nat
  totalPages : Nat
  pagesRequested : List Int
deriving DecidableEq, Repr

/-- The aggregation `while` loop.  The upstream (`fetchOnePage`) is the
total oracle `fetch`; failure paths (timeout, non-2xx) abort the whole
request in the source and are outside this model.  The loop body runs at
most `MAX_PAGES` times (the guard bounds `pageNum ≤ 20` and `pageNum`
increases every iteration), so fuel `21` is never exhausted. -/
def aggLoop (fetch : Int → SchedPage) (dir : String) (dayEnd : Option Int) :
    Nat → AggLoopState → AggLoopState
  | 0, s => s
  | fuel + 1, s =>
    if s.pageNum ≤ s.totalPages ∧ s.pageNum ≤ MAX_PAGES then
      if (fetch (s.pageNum : Int)).data.isEmpty then
        { s with totalPages := pageTotalOrOne (fetch (s.pageNum : Int)),
                 pagesRequested := s.pagesRequested ++ [(s.pageNum : Int)] }
      else
        if (processEntries dir dayEnd (fetch (s.pageNum : Int)).data).2 then
          { s with
            allUAFlights := s.allUAFlights
              ++ (processEntries dir dayEnd (fetch (s.pageNum : Int)).data).1,
            totalFetched := s.totalFetched + (fetch (s.pageNum : Int)).data.length,
            totalPages := pageTotalOrOne (fetch (s.pageNum : Int)),
            pagesRequested := s.pagesRequested ++ [(s.pageNum : Int)] }
        else
          aggLoop fetch dir dayEnd fuel
            { s with
              allUAFlights := s.allUAFlights
                ++ (processEntries dir dayEnd (fetch (s.pageNum : Int)).data).1,
              totalFetched := s.totalFetched + (fetch (s.pageNum : Int)).data.length,
              totalPages := pageTotalOrOne (fetch (s.pageNum : Int)),
              pagesRequested := s.pagesRequested ++ [(s.pageNum : Int)],
              pageNum := s.pageNum + 1 }
    else s

/-- The aggregation-mode response body. -/
structure AggResult where
  flights : List FlightRec
  total : Nat
  totalFetched : Nat
  pagesScanned : Nat
  totalPages : Nat
  hub : String
  dir : String
deriving DecidableEq, Repr

/-- Aggregation mode: run the loop from page 1 and assemble the result
(`pagesScanned = Math.min(pageNum, totalPages, MAX_PAGES)`).  Also
returns the trace of requested pages. -/
def aggregate (fetch : Int → SchedPage) (hub dir : String)
    (ts : Option Int) : AggResult × List Int :=
  let final := aggLoop fetch dir (ts.map (fun t => t + 86400)) 21
    ⟨[], 0, 1, 1, []⟩
  (⟨final.allUAFlights, final.allUAFlights.length, final.totalFetched,
    min (min final.pageNum final.totalPages) MAX_PAGES, final.totalPages,
    hub, dir⟩,
   final.pagesRequested)

/-- The query of the schedule endpoint; `none` is an absent parameter.
(Multi-valued query parameters are not modelled.) -/
structure SchedQuery where
  hub : Option String
  dir : Option String
  timestamp : Option String
  page : Option String
deriving DecidableEq, Repr

/-- JS falsiness of an optional string: absent (`undefined`) or `''`. -/
def jsFalsyStr (s : Option String) : Bool :=
  match s with
  | none => true
  | some v => v = ""

/-- Value of a longest leading decimal-digit run (`none` if empty). -/
def leadDigits : List Char → Option Nat → Option Nat
  | [], acc => acc
  | c :: rest, acc =>
    if '0' ≤ c ∧ c ≤ '9' then
      leadDigits rest (some ((acc.getD 0) * 10 + (c.toNat - 48)))
    else acc

/-- `parseInt(s)` in base 10: skip leading whitespace, optional sign,
then the longest leading digit run; `none` models `NaN`.  (The `0x`
hexadecimal auto-detection of `parseInt` is not modelled; no call site
passes such strings.) -/
def jsParseInt (s : String) : Option Int :=
  match s.toList.dropWhile
    (fun c => c = ' ' ∨ c = '\t' ∨ c = '\n' ∨ c = '\r') with
  | '-' :: rest => (leadDigits rest none).map (fun n => -(n : Int))
  | '+' :: rest => (leadDigits rest none).map (fun n => (n : Int))
  | cs => (leadDigits cs none).map (fun n => (n : Int))

/-- Key fragment for a possibly-`NaN` timestamp (template literals
stringify `NaN` as `"NaN"`). -/
def tsKeyStr : Option Int → String
  | some t => toString t
  | none => "NaN"

/-- A value stored in the schedule cache: a raw page (single-page mode)
or an aggregation result. -/
inductive SchedCacheVal where
  | page (p : SchedPage)
  | agg (a : AggResult)
deriving DecidableEq, Repr

/-- A response of the schedule handler (success and 400 paths; 500/504
error paths of the source are outside this model). -/
inductive SchedResp where
  | badRequest (msg : String)
  | okPage (body : SchedPage) (cachedFlag : Bool)
  | okAgg (body : AggResult) (cachedFlag : Bool)
deriving DecidableEq, Repr

/-- The schedule handler: validation, TTL choice, then single-page or
aggregation mode through the cache.  Returns the response, the cache
after the request, and the trace of pages fetched upstream. -/
def schedHandler (fetch : Int → SchedPage) (nowMs : Int) (q : SchedQuery)
    (cache : SchedCache String SchedCacheVal) :
    SchedResp × SchedCache String SchedCacheVal × List Int :=
  if jsFalsyStr q.hub ∨ jsFalsyStr q.timestamp then
    (.badRequest "Missing required params: hub, timestamp", cache, [])
  else if ¬ (q.dir.getD "departures" = "departures"
      ∨ q.dir.getD "departures" = "arrivals") then
    (.badRequest "dir must be departures or arrivals", cache, [])
  else
    let hub := q.hub.getD ""
    let dir := q.dir.getD "departures"
    let ts := jsParseInt (q.timestamp.getD "")
    let isOld : Bool := match ts with
      | some t => 86400 < nowMs / 1000 - t
      | none => false
    let ttl : Int := if isOld then 300000 else 60000
    match q.page with
    | some pg =>
      let pageNum : Int := match jsParseInt pg with
        | some v => if v = 0 then 1 else v
        | none => 1
      let cacheKey := "sched:" ++ hub ++ ":" ++ dir ++ ":" ++ tsKeyStr ts
        ++ ":" ++ toString pageNum
      match (cacheGet nowMs cacheKey cache).1 with
      | some entry =>
        match entry.data with
        | .page p => (.okPage p true, (cacheGet nowMs cacheKey cache).2, [])
        | .agg a => (.okAgg a true, (cacheGet nowMs cacheKey cache).2, [])
      | none =>
        (.okPage (fetch pageNum) false,
         cacheSet nowMs cacheKey (.page (fetch pageNum)) ttl
           (cacheGet nowMs cacheKey cache).2,
         [pageNum])
    | none =>
      let aggKey := "agg:" ++ hub ++ ":" ++ dir ++ ":" ++ tsKeyStr ts
      match (cacheGet nowMs aggKey cache).1 with
      | some entry =>
        match entry.data with
        | .agg a => (.okAgg a true, (cacheGet nowMs aggKey cache).2, [])
        | .page p => (.okPage p true, (cacheGet nowMs aggKey cache).2, [])
      | none =>
        (.okAgg (aggregate fetch hub dir ts).1 false,
         cacheSet nowMs aggKey (.agg (aggregate fetch hub dir ts).1) ttl
           (cacheGet nowMs aggKey cache).2,
         (aggregate fetch hub dir ts).2)

/-- Claim C4 (amended): the schedule handler responds 400, with the cache
untouched and no upstream fetch, exactly when `hub` is missing/empty,
`timestamp` is missing/empty, or the (defaulted) `dir` is not
`departures`/`arrivals`.  A present but non-integer `timestamp` is NOT
rejected: `parseInt` yields `NaN` and the handler proceeds to the cache
lookup and upstream fetch. -/
theorem claim_C4_amended :
    ∀ (fetch : Int → SchedPage) (nowMs : Int) (q : SchedQuery)
      (cache : SchedCache String SchedCacheVal),
      ((∃ msg, (schedHandler fetch nowMs q cache).1 = .badRequest msg)
        ↔ (jsFalsyStr q.hub = true ∨ jsFalsyStr q.timestamp = true
            ∨ ¬ (q.dir.getD "departures" = "departures"
                ∨ q.dir.getD "departures" = "arrivals")))
      ∧ ((∃ msg, (schedHandler fetch nowMs q cache).1 = .badRequest msg) →
          (schedHandler fetch nowMs q cache).2.1 = cache
          ∧ (schedHandler fetch nowMs q cache).2.2 = []) := by
  intro fetch nowMs q cache
  by_cases h1 : jsFalsyStr q.hub = true ∨ jsFalsyStr q.timestamp = true
  · unfold schedHandler
    rw [if_pos h1]
    constructor
    · refine iff_of_true ⟨_, rfl⟩ ?_
      rcases h1 with h | h
      · exact Or.inl h
      · exact Or.inr (Or.inl h)
    · intro _
      exact ⟨rfl, rfl⟩
  · by_cases h2 : q.dir.getD "departures" = "departures"
        ∨ q.dir.getD "departures" = "arrivals"
    · unfold schedHandler
      rw [if_neg h1, if_neg (not_not_intro h2)]
      rcases hq : q.page with _ | pg
      · rcases hget : (cacheGet nowMs
            ("agg:" ++ q.hub.getD "" ++ ":" ++ q.dir.getD "departures" ++ ":"
              ++ tsKeyStr (jsParseInt (q.timestamp.getD ""))) cache).1
          with _ | entry
        · simp [hget, h1, h2]
        · rcases entry with ⟨ed, ee, et⟩
          rcases ed with p | a
          · simp [hget, h1, h2]
          · simp [hget, h1, h2]
      · rcases hget : (cacheGet nowMs
            ("sched:" ++ q.hub.getD "" ++ ":" ++ q.dir.getD "departures" ++ ":"
              ++ tsKeyStr (jsParseInt (q.timestamp.getD "")) ++ ":"
              ++ toString (match jsParseInt pg with
                  | some v => if v = 0 then 1 else v
                  | none => 1)) cache).1
          with _ | entry
        · simp [hget, h1, h2]
        · rcases entry with ⟨ed, ee, et⟩
          rcases ed with p | a
          · simp [hget, h1, h2]
          · simp [hget, h1, h2]
    · unfold schedHandler
      rw [if_neg h1, if_pos h2]
      constructor
      · exact iff_of_true ⟨_, rfl⟩ (Or.inr (Or.inr h2))
      · intro _
        exact ⟨rfl, rfl⟩

/-- Claim C4 is false as stated: with `hub=ORD` and the non-integer
`timestamp=abc` the handler does not respond 400 — it proceeds past
validation and performs an upstream fetch (page 1 is requested). -/
theorem claim_C4_counterexample :
    (schedHandler (fun _ => ⟨some 1, []⟩) 0
        ⟨some "ORD", none, some "abc", none⟩ []).1
      = .okAgg ⟨[], 0, 0, 1, 1, "ORD", "departures"⟩ false
    ∧ (schedHandler (fun _ => ⟨some 1, []⟩) 0
        ⟨some "ORD", none, some "abc", none⟩ []).2.2 = [1] := by
  constructor
  · decide
  · decide

/-- Witness for `claim_C4_amended`: a request with every parameter absent
is rejected 400 and leaves the cache untouched with no fetch. -/
theorem claim_C4_witness :
    (∃ msg, (schedHandler (fun _ => ⟨some 1, []⟩) 0
        ⟨none, none, none, none⟩ []).1 = .badRequest msg)
    ∧ (schedHandler (fun _ => ⟨some 1, []⟩) 0
        ⟨none, none, none, none⟩ []).2.1 = []
    ∧ (schedHandler (fun _ => ⟨some 1, []⟩) 0
        ⟨none, none, none, none⟩ []).2.2 = [] := by
  have h := claim_C4_amended (fun _ => ⟨some 1, []⟩) 0 ⟨none, none, none, none⟩ []
  have hbad : ∃ msg, (schedHandler (fun _ => ⟨some 1, []⟩) 0
      ⟨none, none, none, none⟩ []).1 = .badRequest msg :=
    ⟨"Missing required params: hub, timestamp", by decide⟩
  exact ⟨hbad, (h.2 hbad).1, (h.2 hbad).2⟩

/-- Claim C2 is false as stated: with a 3-page upstream whose page 2 holds
a boundary-crossing UA record (departure 86400 = dayStart+86400) followed
by an in-day UA record (departure 200, payload 3), the aggregator does
NOT finish processing the remaining records of page 2 — the in-day record
after the boundary record is absent from the returned flights. -/
theorem claim_C2_counterexample :
    (aggregate
        (fun p =>
          if p = 1 then ⟨some 3, [⟨some ⟨some "UA", ⟨some 100, none⟩, 1⟩⟩]⟩
          else if p = 2 then
            ⟨some 3, [⟨some ⟨some "UA", ⟨some 86400, none⟩, 2⟩⟩,
                      ⟨some ⟨some "UA", ⟨some 200, none⟩, 3⟩⟩]⟩
          else ⟨some 3, [⟨some ⟨some "UA", ⟨some 300, none⟩, 4⟩⟩]⟩)
        "ORD" "departures" (some 0)).1.flights
      = [⟨some "UA", ⟨some 100, none⟩, 1⟩]
    ∧ (⟨some "UA", ⟨some 200, none⟩, 3⟩ : FlightRec)
        ∉ (aggregate
            (fun p =>
              if p = 1 then ⟨some 3, [⟨some ⟨some "UA", ⟨some 100, none⟩, 1⟩⟩]⟩
              else if p = 2 then
                ⟨some 3, [⟨some ⟨some "UA", ⟨some 86400, none⟩, 2⟩⟩,
                          ⟨some ⟨some "UA", ⟨some 200, none⟩, 3⟩⟩]⟩
              else ⟨some 3, [⟨some ⟨some "UA", ⟨some 300, none⟩, 4⟩⟩]⟩)
            "ORD" "departures" (some 0)).1.flights := by
  constructor
  · decide
  · decide

/-- Claim C2 (amended): when a page's record loop hits a record whose
relevant timestamp crosses the day boundary, the aggregator stops at that
record (records after it on the page are not collected), still counts the
whole page into `totalFetched`, and fetches no further page.  For the
3-page upstream with the boundary on page 2: page 3 is never requested,
`pagesScanned = 2`, and only page 1's in-day record is returned. -/
theorem claim_C2_amended :
    (∀ (fetch : Int → SchedPage) (dir : String) (dayEnd : Option Int)
       (fuel : Nat) (s : AggLoopState),
       s.pageNum ≤ s.totalPages ∧ s.pageNum ≤ MAX_PAGES →
       (fetch (s.pageNum : Int)).data.isEmpty = false →
       (processEntries dir dayEnd (fetch (s.pageNum : Int)).data).2 = true →
       aggLoop fetch dir dayEnd (fuel + 1) s
         = { s with
             allUAFlights := s.allUAFlights
               ++ (processEntries dir dayEnd (fetch (s.pageNum : Int)).data).1,
             totalFetched := s.totalFetched
               + (fetch (s.pageNum : Int)).data.length,
             totalPages := pageTotalOrOne (fetch (s.pageNum : Int)),
             pagesRequested := s.pagesRequested ++ [(s.pageNum : Int)] })
    ∧ ((aggregate
          (fun p =>
            if p = 1 then ⟨some 3, [⟨some ⟨some "UA", ⟨some 100, none⟩, 1⟩⟩]⟩
            else if p = 2 then
              ⟨some 3, [⟨some ⟨some "UA", ⟨some 86400, none⟩, 2⟩⟩,
                        ⟨some ⟨some "UA", ⟨some 200, none⟩, 3⟩⟩]⟩
            else ⟨some 3, [⟨some ⟨some "UA", ⟨some 300, none⟩, 4⟩⟩]⟩)
          "ORD" "departures" (some 0)).1.pagesScanned = 2
       ∧ (aggregate
          (fun p =>
            if p = 1 then ⟨some 3, [⟨some ⟨some "UA", ⟨some 100, none⟩, 1⟩⟩]⟩
            else if p = 2 then
              ⟨some 3, [⟨some ⟨some "UA", ⟨some 86400, none⟩, 2⟩⟩,
                        ⟨some ⟨some "UA", ⟨some 200, none⟩, 3⟩⟩]⟩
            else ⟨some 3, [⟨some ⟨some "UA", ⟨some 300, none⟩, 4⟩⟩]⟩)
          "ORD" "departures" (some 0)).2 = [1, 2]
       ∧ (aggregate
          (fun p =>
            if p = 1 then ⟨some 3, [⟨some ⟨some "UA", ⟨some 100, none⟩, 1⟩⟩]⟩
            else if p = 2 then
              ⟨some 3, [⟨some ⟨some "UA", ⟨some 86400, none⟩, 2⟩⟩,
                        ⟨some ⟨some "UA", ⟨some 200, none⟩, 3⟩⟩]⟩
            else ⟨some 3, [⟨some ⟨some "UA", ⟨some 300, none⟩, 4⟩⟩]⟩)
          "ORD" "departures" (some 0)).1.totalFetched = 3) := by
  constructor
  · intro fetch dir dayEnd fuel s hguard hne hpd
    conv_lhs => rw [aggLoop]
    rw [if_pos hguard, if_neg (by simp [hne]), if_pos hpd]
  · exact ⟨by decide, by decide, by decide⟩

/-- Witness for `claim_C2_amended`: a single-page upstream whose first
record already crosses the boundary makes the loop stop after requesting
only page 1. -/
theorem claim_C2_witness :
    (((⟨[], 0, 1, 1, []⟩ : AggLoopState).pageNum
        ≤ (⟨[], 0, 1, 1, []⟩ : AggLoopState).totalPages
      ∧ (⟨[], 0, 1, 1, []⟩ : AggLoopState).pageNum ≤ MAX_PAGES)
      ∧ ((fun _ => (⟨some 1, [⟨some ⟨some "UA", ⟨some 86400, none⟩, 9⟩⟩]⟩
            : SchedPage)) ((1 : Nat) : Int)).data.isEmpty = false
      ∧ (processEntries "departures" (some 86400)
          ((fun _ => (⟨some 1, [⟨some ⟨some "UA", ⟨some 86400, none⟩, 9⟩⟩]⟩
            : SchedPage)) ((1 : Nat) : Int)).data).2 = true)
    ∧ aggLoop
        (fun _ => ⟨some 1, [⟨some ⟨some "UA", ⟨some 86400, none⟩, 9⟩⟩]⟩)
        "departures" (some 86400) 21 ⟨[], 0, 1, 1, []⟩
      = ⟨[], 1, 1, 1, [1]⟩ := by
  refine ⟨⟨⟨by decide, by decide⟩, by decide, by decide⟩, ?_⟩
  exact claim_C2_amended.1
    (fun _ => ⟨some 1, [⟨some ⟨some "UA", ⟨some 86400, none⟩, 9⟩⟩]⟩)
    "departures" (some 86400) 20 ⟨[], 0, 1, 1, []⟩
    ⟨by decide, by decide⟩ (by decide) (by decide)

/-! ## Flight-number normalization (`src/api/flight-times.js`,
lines 47–52).  Strings are lists of character codes; the designator
alphabet is ASCII, so `toUpperCase` and the `\s` class are modelled on
their ASCII fragments. -/

/-- A JS value reaching `normalizeFlightNumber` through
`req.query.flight`. -/
inductive JsVal where
  | undef
  | null
  | str (s : List Nat)
  | arr (xs : List (List Nat))
deriving DecidableEq, Repr

/-- ASCII whitespace of the `\s` class (space, TAB, LF, VT, FF, CR). -/
def jsIsWS (c : Nat) : Bool :=
  c = 32 ∨ c = 9 ∨ c = 10 ∨ c = 11 ∨ c = 12 ∨ c = 13

/-- `toUpperCase` on one ASCII code unit. -/
def jsUpper (c : Nat) : Nat :=
  if 97 ≤ c ∧ c ≤ 122 then c - 32 else c

/-- `trim()`: strip leading and trailing whitespace. -/
def jsTrim (l : List Nat) : List Nat :=
  ((l.dropWhile jsIsWS).reverse.dropWhile jsIsWS).reverse

/-- `.replace(/\s+/g, '')`: delete every whitespace code unit. -/
def stripWS (l : List Nat) : List Nat :=
  l.filter (fun c => ¬ jsIsWS c)

/-- `q.startsWith('UA')` (`U` = 85, `A` = 65). -/
def startsUA : List Nat → Bool
  | 85 :: 65 :: _ => true
  | _ => false

/-- `q.startsWith('UAL')` (`L` = 76). -/
def startsUAL : List Nat → Bool
  | 85 :: 65 :: 76 :: _ => true
  | _ => false

/-- `/^\d{1,4}$/.test(q)` (`0`–`9` are 48–57). -/
def isDigits1to4 (l : List Nat) : Bool :=
  decide (1 ≤ l.length) ∧ decide (l.length ≤ 4)
    ∧ l.all (fun c => 48 ≤ c ∧ c ≤ 57)

/-- First assignment of `normalizeFlightNumber`:
`(…).trim().toUpperCase().replace(/\s+/g, '')`. -/
def normQ0 (s : List Nat) : List Nat :=
  stripWS ((jsTrim s).map jsUpper)

/-- Second assignment: `if (q.startsWith('UA') && !q.startsWith('UAL'))
q = 'UAL' + q.slice(2)`. -/
def normQ1 (s : List Nat) : List Nat :=
  if startsUA (normQ0 s) ∧ ¬ startsUAL (normQ0 s) then
    85 :: 65 :: 76 :: (normQ0 s).drop 2
  else normQ0 s

/-- Third assignment: `if (/^\d{1,4}$/.test(q)) q = 'UAL' + q`. -/
def normCore (s : List Nat) : List Nat :=
  if isDigits1to4 (normQ1 s) then 85 :: 65 :: 76 :: normQ1 s
  else normQ1 s

/-- `normalizeFlightNumber(raw)`: `(raw || '')` turns `undefined`,
`null` and `''` into `''`; an array (even an empty one) is truthy but has
no `.trim` method, so evaluation throws a `TypeError`. -/
def normalizeFlightNumber : JsVal → Except String (List Nat)
  | .arr _ => .error "TypeError: raw.trim is not a function"
  | .str s => .ok (normCore s)
  | _ => .ok (normCore [])

/-- ASCII uppercasing is idempotent. -/
theorem jsUpper_idem (c : Nat) : jsUpper (jsUpper c) = jsUpper c := by
  unfold jsUpper
  by_cases h : 97 ≤ c ∧ c ≤ 122
  · rw [if_pos h, if_neg (by omega)]
  · rw [if_neg h, if_neg h]

/-- A code is "normal" when it is uppercase-fixed and not whitespace. -/
def NormFixed (c : Nat) : Prop := jsUpper c = c ∧ jsIsWS c = false

theorem dropWhile_all_false {α : Type} (p : α → Bool) (l : List α)
    (h : ∀ c ∈ l, p c = false) : l.dropWhile p = l := by
  cases l with
  | nil => rfl
  | cons a rest =>
    have := h a (List.mem_cons_self a rest)
    simp [List.dropWhile_cons, this]

theorem jsTrim_fixed (l : List Nat) (h : ∀ c ∈ l, jsIsWS c = false) :
    jsTrim l = l := by
  unfold jsTrim
  rw [dropWhile_all_false jsIsWS l h]
  rw [dropWhile_all_false jsIsWS l.reverse
    (fun c hc => h c (List.mem_reverse.mp hc))]
  exact List.reverse_reverse l

theorem map_upper_fixed (l : List Nat) (h : ∀ c ∈ l, jsUpper c = c) :
    l.map jsUpper = l := by
  induction l with
  | nil => rfl
  | cons a rest ih =>
    rw [List.map_cons, h a (List.mem_cons_self a rest),
      ih (fun c hc => h c (List.mem_cons_of_mem a hc))]

theorem stripWS_fixed (l : List Nat) (h : ∀ c ∈ l, jsIsWS c = false) :
    stripWS l = l := by
  unfold stripWS
  apply List.filter_eq_self.mpr
  intro a ha
  simpa using h a ha

theorem mem_normQ0 (s : List Nat) (c : Nat) (h : c ∈ normQ0 s) :
    NormFixed c := by
  unfold normQ0 stripWS at h
  have hmem := List.mem_filter.mp h
  have hws : jsIsWS c = false := by simpa using hmem.2
  rcases List.mem_map.mp hmem.1 with ⟨x, _, hx⟩
  exact ⟨hx ▸ jsUpper_idem x, hws⟩

theorem mem_normQ1 (s : List Nat) (c : Nat) (h : c ∈ normQ1 s) :
    NormFixed c := by
  unfold normQ1 at h
  split at h
  · simp only [List.mem_cons] at h
    rcases h with h | h | h | h
    · exact h ▸ ⟨by decide, by decide⟩
    · exact h ▸ ⟨by decide, by decide⟩
    · exact h ▸ ⟨by decide, by decide⟩
    · exact mem_normQ0 s c (List.mem_of_mem_drop h)
  · exact mem_normQ0 s c h

theorem mem_normCore (s : List Nat) (c : Nat) (h : c ∈ normCore s) :
    NormFixed c := by
  unfold normCore at h
  split at h
  · simp only [List.mem_cons] at h
    rcases h with h | h | h | h
    · exact h ▸ ⟨by decide, by decide⟩
    · exact h ▸ ⟨by decide, by decide⟩
    · exact h ▸ ⟨by decide, by decide⟩
    · exact mem_normQ1 s c h
  · exact mem_normQ1 s c h

theorem normQ0_fixed (l : List Nat) (h : ∀ c ∈ l, NormFixed c) :
    normQ0 l = l := by
  unfold normQ0
  rw [jsTrim_fixed l (fun c hc => (h c hc).2),
      map_upper_fixed l (fun c hc => (h c hc).1),
      stripWS_fixed l (fun c hc => (h c hc).2)]

theorem startsUAL_of_startsUA_normCore (s : List Nat) :
    startsUA (normCore s) = true → startsUAL (normCore s) = true := by
  unfold normCore
  split
  · intro _; rfl
  · unfold normQ1
    split
    · intro _; rfl
    · rename_i hcond
      intro hua
      by_contra hnual
      exact absurd ⟨hua, hnual⟩ hcond

theorem isDigits_normCore_false (s : List Nat) :
    isDigits1to4 (normCore s) = false := by
  unfold normCore
  split
  · simp [isDigits1to4]
  · rename_i h
    exact Bool.eq_false_iff.mpr h

theorem normCore_idem (s : List Nat) : normCore (normCore s) = normCore s := by
  have h0 : normQ0 (normCore s) = normCore s :=
    normQ0_fixed _ (mem_normCore s)
  have h1 : normQ1 (normCore s) = normCore s := by
    unfold normQ1
    rw [h0]
    by_cases hua : startsUA (normCore s) = true
    · rw [if_neg]
      intro hc
      exact hc.2 (startsUAL_of_startsUA_normCore s hua)
    · rw [if_neg]
      intro hc
      exact hua hc.1
  rw [show normCore (normCore s)
      = (if isDigits1to4 (normQ1 (normCore s)) then
          85 :: 65 :: 76 :: normQ1 (normCore s)
        else normQ1 (normCore s)) from rfl]
  rw [h1, isDigits_normCore_false s]
  simp

/-- Claim C10: `normalizeFlightNumber` is idempotent on string inputs. -/
theorem claim_C10_idempotent (s : List Nat) :
    normalizeFlightNumber (.str (normCore s))
      = normalizeFlightNumber (.str s) := by
  show Except.ok (normCore (normCore s)) = Except.ok (normCore s)
  rw [normCore_idem]

/-- Claim C3 evaluation: empty/absent inputs normalize to the empty
string and a plain string "UA100" becomes "UAL100", but an array input
throws a TypeError instead of normalizing its first element — the
repository's own test `handles array input (takes first element)`
expects the first element to be used. -/
theorem claim_C3_code_divergence :
    normalizeFlightNumber (.str []) = .ok []
    ∧ normalizeFlightNumber .null = .ok []
    ∧ normalizeFlightNumber .undef = .ok []
    ∧ normalizeFlightNumber (.str [85, 65, 49, 48, 48])
        = .ok [85, 65, 76, 49, 48, 48]
    ∧ normalizeFlightNumber
        (.arr [[85, 65, 49, 48, 48], [85, 65, 50, 48, 48]])
        = .error "TypeError: raw.trim is not a function" := by
  exact ⟨rfl, rfl, rfl, rfl, rfl⟩

/-! ## Epoch conversion (`src/api/flight-times.js`, lines 54–57) -/

/-- A JS value reaching `epochToISO`. -/
inductive JsNum where
  | undef
  | null
  | num (n : Int)
deriving DecidableEq, Repr

/-- Proleptic-Gregorian date (year, month, day) from days since
1970-01-01, the civil-from-days computation used by `Date`. -/
def civilFromDays (z0 : Int) : Int × Nat × Nat :=
  let z := z0 + 719468
  let era := z.fdiv 146097
  let doe := (z - era * 146097).toNat
  let yoe := (doe - doe / 1460 + doe / 36524 - doe / 146096) / 365
  let y := (yoe : Int) + era * 400
  let doy := doe - (365 * yoe + yoe / 4 - yoe / 100)
  let mp := (5 * doy + 2) / 153
  let d := doy - (153 * mp + 2) / 5 + 1
  let m := if mp < 10 then mp + 3 else mp - 9
  (y + (if m ≤ 2 then 1 else 0), m, d)

/-- Two-digit zero-padded field. -/
def pad2 (n : Nat) : String :=
  if n < 10 then "0" ++ toString n else toString n

/-- Four-digit zero-padded year (valid for years 0–9999; `toISOString`
switches to an expanded ±YYYYYY form outside that range, which no call
site reaches). -/
def pad4 (n : Int) : String :=
  if n.toNat < 10 then "000" ++ toString n.toNat
  else if n.toNat < 100 then "00" ++ toString n.toNat
  else if n.toNat < 1000 then "0" ++ toString n.toNat
  else toString n.toNat

/-- `new Date(epoch * 1000).toISOString()` for an integer `epoch` in
seconds: milliseconds are always `000`. -/
def isoUTC (epoch : Int) : String :=
  let days := epoch.fdiv 86400
  let sod := (epoch - days * 86400).toNat
  let c := civilFromDays days
  pad4 c.1 ++ "-" ++ pad2 c.2.1 ++ "-" ++ pad2 c.2.2 ++ "T"
    ++ pad2 (sod / 3600) ++ ":" ++ pad2 (sod % 3600 / 60) ++ ":"
    ++ pad2 (sod % 60) ++ ".000Z"

/-- `epochToISO(epoch)`: `if (!epoch) return ''` — `0`, `null` and
`undefined` are falsy — else the ISO string. -/
def epochToISO (e : JsNum) : String :=
  match e with
  | .num n => if n = 0 then "" else isoUTC n
  | _ => ""

/-- Claim C9: `epochToISO` maps `0`, `null` and `undefined` to the empty
string (never a 1970 string), and maps every positive epoch to its
ISO-8601 UTC string; in particular `epochToISO(1704067200)` is exactly
`"2024-01-01T00:00:00.000Z"`. -/
theorem claim_C9_epoch_to_iso :
    epochToISO (.num 0) = ""
    ∧ epochToISO .null = ""
    ∧ epochToISO .undef = ""
    ∧ (∀ n : Int, 0 < n → epochToISO (.num n) = isoUTC n)
    ∧ epochToISO (.num 1704067200) = "2024-01-01T00:00:00.000Z"
    ∧ epochToISO (.num 0) ≠ "1970-01-01T00:00:00.000Z" := by
  refine ⟨rfl, rfl, rfl, ?_, by decide, by decide⟩
  intro n hn
  show (if n = 0 then "" else isoUTC n) = isoUTC n
  rw [if_neg (by omega)]

/-- Witness for `claim_C9_epoch_to_iso` at the positive epoch
1704067200. -/
theorem claim_C9_witness :
    (0 : Int) < 1704067200
    ∧ epochToISO (.num 1704067200) = isoUTC 1704067200 :=
  ⟨by decide, claim_C9_epoch_to_iso.2.2.2.1 1704067200 (by decide)⟩

/-! ## Best-candidate selection (`src/api/flight-times.js`,
lines 116–134) -/

/-- One activity-log record: `gateDepartureTimes?.scheduled` plus an
opaque payload standing for the record's remaining fields. -/
structure FAFlight where
  gateDepSched : Option Int
  payload : Nat
deriving DecidableEq, Repr

/-- One value of the parsed `bootstrap.flights` map:
`val?.activityLog?.flights || []`. -/
structure FAEntry where
  activityLog : List FAFlight
deriving DecidableEq, Repr

/-- JS truthiness of `f.gateDepartureTimes?.scheduled` (absent and `0`
are falsy). -/
def truthySched (f : FAFlight) : Bool :=
  match f.gateDepSched with
  | some v => v ≠ 0
  | none => false

/-- The number compared by `f.gateDepartureTimes.scheduled >
bestFlight.gateDepartureTimes.scheduled` (reached only under
truthiness). -/
def schedVal (f : FAFlight) : Int := f.gateDepSched.getD 0

/-- The loop body: `if (!bestFlight || (f.gateDepartureTimes?.scheduled
&& (!bestFlight.gateDepartureTimes?.scheduled ||
f.gateDepartureTimes.scheduled > bestFlight.gateDepartureTimes.scheduled)))
bestFlight = f`. -/
def selStep (best : Option FAFlight) (f : FAFlight) : Option FAFlight :=
  match best with
  | none => some f
  | some b =>
    if truthySched f ∧ (¬ truthySched b ∨ schedVal b < schedVal f) then some f
    else best

/-- The candidates the loop examines: the first activity-log entry of
each key of `Object.entries(flights)`, skipping keys whose log is empty
(`continue`).  `bestKey` is tracked by the source but unused in the
response and is omitted. -/
def candidates (entries : List (String × FAEntry)) : List FAFlight :=
  entries.filterMap (fun p => p.2.activityLog.head?)

/-- The selection loop; `none` means the handler responds 404
(`No active flight found`). -/
def selectBest (entries : List (String × FAEntry)) : Option FAFlight :=
  (candidates entries).foldl selStep none

/-- Folding from a truthy accumulator keeps a truthy best that dominates
the accumulator and every truthy candidate seen. -/
theorem foldl_selStep_truthy :
    ∀ (l : List FAFlight) (b : FAFlight), truthySched b = true →
      ∃ r, l.foldl selStep (some b) = some r ∧ truthySched r = true
        ∧ schedVal b ≤ schedVal r
        ∧ ∀ c ∈ l, truthySched c = true → schedVal c ≤ schedVal r := by
  intro l
  induction l with
  | nil =>
    intro b hb
    exact ⟨b, rfl, hb, le_refl _, by simp⟩
  | cons f rest ih =>
    intro b hb
    rw [List.foldl_cons]
    by_cases hcond : truthySched f = true
        ∧ (¬ truthySched b = true ∨ schedVal b < schedVal f)
    · have hstep : selStep (some b) f = some f := by
        simp only [selStep]
        rw [if_pos hcond]
      rw [hstep]
      rcases ih f hcond.1 with ⟨r, hr, hrt, hfr, hall⟩
      refine ⟨r, hr, hrt, ?_, ?_⟩
      · rcases hcond.2 with hc | hc
        · exact absurd hb hc
        · exact le_of_lt (lt_of_lt_of_le hc hfr)
      · intro c hc hct
        rcases List.mem_cons.mp hc with hc1 | hc2
        · exact hc1 ▸ hfr
        · exact hall c hc2 hct
    · have hstep : selStep (some b) f = some b := by
        simp only [selStep]
        rw [if_neg hcond]
      rw [hstep]
      rcases ih b hb with ⟨r, hr, hrt, hbr, hall⟩
      refine ⟨r, hr, hrt, hbr, ?_⟩
      intro c hc hct
      rcases List.mem_cons.mp hc with hc1 | hc2
      · subst hc1
        have hfb : schedVal c ≤ schedVal b := by
          by_contra hgt
          exact hcond ⟨hct, Or.inr (by omega)⟩
        exact le_trans hfb hbr
      · exact hall c hc2 hct

/-- Folding from a non-truthy accumulator: if some candidate is truthy
the result is a dominating truthy best; if none is, the accumulator
survives unchanged. -/
theorem foldl_selStep_nontruthy :
    ∀ (l : List FAFlight) (b : FAFlight), truthySched b = false →
      ((∃ c ∈ l, truthySched c = true) →
        ∃ r, l.foldl selStep (some b) = some r ∧ truthySched r = true
          ∧ ∀ c ∈ l, truthySched c = true → schedVal c ≤ schedVal r)
      ∧ ((∀ c ∈ l, truthySched c = false) →
          l.foldl selStep (some b) = some b) := by
  intro l
  induction l with
  | nil =>
    intro b hb
    exact ⟨fun h => by simp at h, fun _ => rfl⟩
  | cons f rest ih =>
    intro b hb
    constructor
    · intro hex
      rw [List.foldl_cons]
      by_cases hf : truthySched f = true
      · have hstep : selStep (some b) f = some f := by
          simp only [selStep]
          rw [if_pos ⟨hf, Or.inl (by simp [hb])⟩]
        rw [hstep]
        rcases foldl_selStep_truthy rest f hf with ⟨r, hr, hrt, hfr, hall⟩
        refine ⟨r, hr, hrt, ?_⟩
        intro c hc hct
        rcases List.mem_cons.mp hc with hc1 | hc2
        · exact hc1 ▸ hfr
        · exact hall c hc2 hct
      · have hstep : selStep (some b) f = some b := by
          simp only [selStep]
          rw [if_neg (fun hcond => hf hcond.1)]
        rw [hstep]
        have hex' : ∃ c ∈ rest, truthySched c = true := by
          rcases hex with ⟨c, hc, hct⟩
          rcases List.mem_cons.mp hc with hc1 | hc2
          · exact absurd (hc1 ▸ hct) hf
          · exact ⟨c, hc2, hct⟩
        rcases (ih b hb).1 hex' with ⟨r, hr, hrt, hall⟩
        refine ⟨r, hr, hrt, ?_⟩
        intro c hc hct
        rcases List.mem_cons.mp hc with hc1 | hc2
        · exact absurd (hc1 ▸ hct) hf
        · exact hall c hc2 hct
    · intro hnone
      rw [List.foldl_cons]
      have hf : truthySched f = false := hnone f (List.mem_cons_self f rest)
      have hstep : selStep (some b) f = some b := by
        simp only [selStep]
        rw [if_neg (fun hcond => by rw [hf] at hcond; exact absurd hcond.1 (by simp))]
      rw [hstep]
      exact (ih b hb).2 (fun c hc => hnone c (List.mem_cons_of_mem f hc))

/-- Folding from a `some` accumulator never returns `none`. -/
theorem foldl_selStep_some :
    ∀ (l : List FAFlight) (b : FAFlight),
      ∃ r, l.foldl selStep (some b) = some r := by
  intro l
  induction l with
  | nil => intro b; exact ⟨b, rfl⟩
  | cons f rest ih =>
    intro b
    rw [List.foldl_cons]
    simp only [selStep]
    by_cases h : truthySched f = true
        ∧ (¬ truthySched b = true ∨ schedVal b < schedVal f)
    · rw [if_pos h]; exact ih f
    · rw [if_neg h]; exact ih b

/-- Claim C8: among the candidates (first activity-log entry per key,
keys with an empty log skipped), the loop returns 404-`none` exactly when
there is no candidate; when no candidate has a truthy scheduled
gate-departure it keeps the first candidate (a schedule-less candidate is
accepted initially but never replaces anything); and when some candidate
has a truthy scheduled gate-departure, the selected flight has one and
its value is maximal among them.  "Has a scheduled gate-departure value"
is JS truthiness: present and nonzero. -/
theorem claim_C8_selection :
    (∀ entries : List (String × FAEntry),
      (selectBest entries = none ↔ candidates entries = []))
    ∧ (∀ entries : List (String × FAEntry),
        (∀ c ∈ candidates entries, truthySched c = false) →
        selectBest entries = (candidates entries).head?)
    ∧ (∀ entries : List (String × FAEntry),
        (∃ c ∈ candidates entries, truthySched c = true) →
        ∃ r, selectBest entries = some r ∧ truthySched r = true
          ∧ ∀ c ∈ candidates entries, truthySched c = true →
              schedVal c ≤ schedVal r) := by
  refine ⟨?_, ?_, ?_⟩
  · intro entries
    rcases hc : candidates entries with _ | ⟨f, rest⟩
    · simp [selectBest, hc]
    · rcases foldl_selStep_some rest f with ⟨r, hr⟩
      simp only [selectBest, hc, List.foldl_cons]
      have hstep : selStep none f = some f := rfl
      rw [hstep, hr]
      simp
  · intro entries hall
    rcases hc : candidates entries with _ | ⟨f, rest⟩
    · simp [selectBest, hc]
    · have hf : truthySched f = false := by
        apply hall
        rw [hc]
        exact List.mem_cons_self f rest
      have hrest : ∀ c ∈ rest, truthySched c = false := by
        intro c hcm
        apply hall
        rw [hc]
        exact List.mem_cons_of_mem f hcm
      simp only [selectBest, hc, List.foldl_cons]
      have hstep : selStep none f = some f := rfl
      rw [hstep, (foldl_selStep_nontruthy rest f hf).2 hrest]
      simp
  · intro entries hex
    rcases hc : candidates entries with _ | ⟨f, rest⟩
    · rw [hc] at hex
      simp at hex
    · rw [hc] at hex
      simp only [selectBest, hc, List.foldl_cons]
      have hstep : selStep none f = some f := rfl
      rw [hstep]
      by_cases hf : truthySched f = true
      · rcases foldl_selStep_truthy rest f hf with ⟨r, hr, hrt, hfr, hall⟩
        refine ⟨r, hr, hrt, ?_⟩
        intro c hcm hct
        rcases List.mem_cons.mp hcm with hc1 | hc2
        · exact hc1 ▸ hfr
        · exact hall c hc2 hct
      · have hf' : truthySched f = false := Bool.eq_false_iff.mpr hf
        have hex' : ∃ c ∈ rest, truthySched c = true := by
          rcases hex with ⟨c, hcm, hct⟩
          rcases List.mem_cons.mp hcm with hc1 | hc2
          · exact absurd (hc1 ▸ hct) hf
          · exact ⟨c, hc2, hct⟩
        rcases (foldl_selStep_nontruthy rest f hf').1 hex' with ⟨r, hr, hrt, hall⟩
        refine ⟨r, hr, hrt, ?_⟩
        intro c hcm hct
        rcases List.mem_cons.mp hcm with hc1 | hc2
        · exact absurd (hc1 ▸ hct) hf
        · exact hall c hc2 hct

/-- Witness for `claim_C8_selection`: four keys — an empty log, a
schedule-less candidate, a candidate scheduled at 50 and one at 100 —
select a truthy best dominating every truthy candidate (the one scheduled
at 100). -/
theorem claim_C8_witness :
    (∃ c ∈ candidates
        [("a", ⟨[]⟩), ("b", ⟨[⟨none, 1⟩]⟩),
         ("c", ⟨[⟨some 50, 2⟩, ⟨some 999, 7⟩]⟩), ("d", ⟨[⟨some 100, 3⟩]⟩)],
      truthySched c = true)
    ∧ (∃ r, selectBest
          [("a", ⟨[]⟩), ("b", ⟨[⟨none, 1⟩]⟩),
           ("c", ⟨[⟨some 50, 2⟩, ⟨some 999, 7⟩]⟩), ("d", ⟨[⟨some 100, 3⟩]⟩)]
          = some r
        ∧ truthySched r = true
        ∧ ∀ c ∈ candidates
            [("a", ⟨[]⟩), ("b", ⟨[⟨none, 1⟩]⟩),
             ("c", ⟨[⟨some 50, 2⟩, ⟨some 999, 7⟩]⟩), ("d", ⟨[⟨some 100, 3⟩]⟩)],
            truthySched c = true → schedVal c ≤ schedVal r) := by
  refine ⟨by decide, ?_⟩
  exact claim_C8_selection.2.2
    [("a", ⟨[]⟩), ("b", ⟨[⟨none, 1⟩]⟩),
     ("c", ⟨[⟨some 50, 2⟩, ⟨some 999, 7⟩]⟩), ("d", ⟨[⟨some 100, 3⟩]⟩)]
    (by decide)
